import Mathlib

/-!
# Verification of the SafeBackup library (`src/lib.rs`)

Shallow embedding of the Rust library providing guarded file operations
`backup_file`, `restore_file`, `delete_file` together with the filename
validator `sanitize_filename`, the containment checker `within_cwd` and the
best-effort audit logger `log_event`.

Modelling conventions:
* A Rust `&str` filename is modelled as `List Char`.  All validator checks are
  byte-faithful: `input.len()` (UTF-8 byte length) is `utf8Len` (sum of
  `Char.utf8Size`); `input.contains('/')`, `input.contains("..")` and
  `input.bytes().all(..)` agree with the character-level checks used here
  because every byte the code cares about (`/`, `\`, `.`, the `[A-Za-z0-9._-]`
  class) is an ASCII byte, and in UTF-8 an ASCII byte occurs exactly as the
  corresponding one-character scalar, while every byte of a multi-byte
  character lies outside the allowed class.
* File contents are byte lists (`List Nat`).  The filesystem is a partial map
  from names to nodes (regular file with content, or directory).
* Each operation is embedded as a function from a filesystem to an `Outcome`:
  the returned `Except`, the final filesystem, and a trace of filesystem
  events (containment checks, opens for read, writes with the written bytes,
  removals, renames), in program order.  The embedding is deterministic: I/O
  primitives fail exactly when the filesystem state makes them fail
  (`create_new` on an existing path, `rename` onto a directory, operating on
  a missing file); the possibility that the audit-log append fails is kept as
  an explicit `logOk : Bool` parameter because the code deliberately discards
  that failure (`.ok()`).
* The timestamped audit line produced by `log_event` is nondeterministic in
  the code (it embeds `Utc::now()`), so it is passed in as a parameter
  `line : List Nat`.
* The canonicalized current working directory is abstracted as a list of path
  components `base`; `cwd()` and `canonicalize` are assumed to succeed.
-/

/-- Error values, one per distinct `bail!`/error site of `src/lib.rs`.
The spec's taxonomy maps onto them as follows: `InvalidName` covers the seven
validator rejections, `PathEscape` is `pathEscape`, `NotFound` covers
`srcMissing`/`backupMissing`/`fileMissing`, `NotRegularFile` is
`srcNotRegular`, `AlreadyExists` is `alreadyExists`, and `IoFailure` covers
`tmpCreateFailed`/`renameFailed`. -/
inductive Err where
  | emptyName        -- "filename is empty"
  | tooLong          -- "filename too long"
  | pathSeparators   -- "path separators are not allowed"
  | traversalTokens  -- "traversal tokens are not allowed"
  | invalidChars     -- "filename contains invalid characters"
  | extNotAllowed    -- "only .txt, .log, or .md files are allowed in this tool"
  | noExt            -- "file must have an extension"
  | invalidFilename  -- within_cwd: "invalid filename" (no file_name component)
  | pathEscape       -- within_cwd: "path escapes working directory"
  | srcMissing       -- backup: "source file does not exist"
  | srcNotRegular    -- backup: "source is not a regular file"
  | alreadyExists    -- backup: "backup already exists, refusing to overwrite"
  | backupMissing    -- restore: "backup file does not exist"
  | tmpCreateFailed  -- restore: `create_new` of the `.tmp` file failed
  | renameFailed     -- restore: `fs::rename` failed
  | fileMissing      -- delete: "file does not exist"
  deriving DecidableEq, Repr

deriving instance DecidableEq for Except

/-- A filename / path string, as a list of characters. -/
abbrev FName := List Char

/-- UTF-8 byte length of a string, Rust's `str::len`. -/
def utf8Len (s : FName) : Nat := (s.map Char.utf8Size).sum

/-- Rust `u8::is_ascii_alphanumeric(b) || b == b'.' || b == b'_' || b == b'-'`,
at the character level (equivalent at the byte level, see module header). -/
def isAllowedChar (c : Char) : Bool :=
  c.isAlphanum || c == '.' || c == '_' || c == '-'

/-- The fixed extension allow-list `["txt", "log", "md"]` of the code. -/
def allowedExts : List FName := ["txt".data, "log".data, "md".data]

/-- The characters after the last `'.'` of the list, or `none` when there is
no `'.'` at all.  Helper for `rustExtension`. -/
def afterLastDot : FName → Option FName
  | [] => none
  | c :: cs =>
    match afterLastDot cs with
    | some r => some r
    | none => if c = '.' then some cs else none

/-- Rust `Path::new(f).extension()` for a single-component (separator-free)
path `f`: `none` when the file name has no embedded `'.'`, when it begins
with `'.'` and contains no further `'.'`, or when it is the special component
`".."`; otherwise the portion after the final `'.'`. -/
def rustExtension (f : FName) : Option FName :=
  match f with
  | [] => none
  | c :: rest =>
    if (c = '.' ∧ '.' ∉ rest) ∨ c :: rest = ['.', '.'] then none
    else afterLastDot (c :: rest)

/-- `sanitize_filename` from `src/lib.rs` lines 13–42, check for check in
source order: empty, byte length, separators, traversal substring, character
class, then the extension `if let` (allow-list on `Some`, missing-extension
error on `None`), finally `Ok(input.to_string())`. -/
def sanitize_filename (input : FName) : Except Err FName :=
  if input.isEmpty then .error .emptyName
  else if utf8Len input > 255 then .error .tooLong
  else if input.contains '/' || input.contains '\\' then .error .pathSeparators
  else if ['.', '.'] <:+: input then .error .traversalTokens
  else if !(input.all isAllowedChar) then .error .invalidChars
  else
    match rustExtension input with
    | some ext =>
      if !(allowedExts.contains ext) then .error .extNotAllowed else .ok input
    | none => .error .noExt

/-- Modelled from the spec: section 4.1 prescribes validation as an ordered
list of seven checks with first-failure semantics ("Checks, in order (first
failure wins, no further checks run)").  `firstFailure` runs such a list. -/
def firstFailure (checks : List ((FName → Bool) × Err)) (s : FName) :
    Except Err FName :=
  match checks with
  | [] => .ok s
  | (p, e) :: rest => if p s then .error e else firstFailure rest s

/-- Modelled from the spec: the seven checks of section 4.1 in the spec's
order, as predicates paired with the error they produce. -/
def specChecks : List ((FName → Bool) × Err) :=
  [ (fun s => s.isEmpty, .emptyName),
    (fun s => decide (utf8Len s > 255), .tooLong),
    (fun s => s.contains '/' || s.contains '\\', .pathSeparators),
    (fun s => decide (['.', '.'] <:+: s), .traversalTokens),
    (fun s => !(s.all isAllowedChar), .invalidChars),
    (fun s => (rustExtension s).isNone, .noExt),
    (fun s =>
      match rustExtension s with
      | some e => !(allowedExts.contains e)
      | none => false, .extNotAllowed) ]

/-- Modelled from the spec: the validator as the spec states it, the ordered
check list under first-failure semantics. -/
def specSanitize (s : FName) : Except Err FName := firstFailure specChecks s

/-! ## Path components and the containment checker

`within_cwd` (lines 48–61) works through `std::path` operations.  On the
target platform (Unix) the component structure of a relative path string is:
split at `'/'`, drop empty components (repeated or trailing separators), and
drop `"."` components except in leading position.  `file_name` is the last
component unless it is `"."` or `".."`; `parent` strips the last component and
is `None` exactly when there are no components; `Path::starts_with` compares
component lists; joining a relative path onto the absolute base concatenates
components (the relative part's `"."` components, now non-leading, drop out).
The canonical base directory is abstracted as its component list. -/

/-- Split a character list at `'/'` (the Unix path separator). -/
def splitSlash : FName → List FName
  | [] => [[]]
  | c :: cs =>
    let r := splitSlash cs
    if c = '/' then [] :: r
    else
      match r with
      | [] => [[c]]
      | h :: t => (c :: h) :: t

/-- Rust `Path::components` of a relative path, as plain strings: non-empty
chunks between separators, with `"."` dropped except as leading component. -/
def pathComponents (p : FName) : List FName :=
  match (splitSlash p).filter (fun c => !c.isEmpty) with
  | [] => []
  | c :: rest => c :: rest.filter (fun c => c ≠ ['.'])

/-- Rust `Path::file_name`: last component, unless it is `"."` or `".."`. -/
def pathFileName (p : FName) : Option FName :=
  match (pathComponents p).getLast? with
  | none => none
  | some c => if c = ['.'] ∨ c = ['.', '.'] then none else some c

/-- `within_cwd` from `src/lib.rs` lines 48–61: take the path's parent
(defaulting to `"."` when there is none), join it onto the canonical base,
join the path's `file_name` (failing with "invalid filename" when there is
none), and fail with "path escapes working directory" unless the candidate
still has the base as a component-wise prefix.  `base` is the canonicalized
current working directory's component list. -/
def within_cwd (base : List FName) (p : FName) : Except Err Unit :=
  let comps := pathComponents p
  let parentComps := if comps.isEmpty then pathComponents ['.'] else comps.dropLast
  match pathFileName p with
  | none => .error .invalidFilename
  | some n =>
    let candidate := (base ++ parentComps.filter (fun c => c ≠ ['.'])) ++ [n]
    if List.isPrefixOf base candidate then .ok () else .error .pathEscape

example : within_cwd ["home".data] "a.txt".data = .ok () := by decide
example : within_cwd [] "".data = .error .invalidFilename := by decide
example : within_cwd [] ".".data = .error .invalidFilename := by decide

example : sanitize_filename "a.txt".data = .ok "a.txt".data := by decide
example : sanitize_filename "../etc".data = .error .pathSeparators := by decide
example : sanitize_filename "a..txt".data = .error .traversalTokens := by decide
example : sanitize_filename "a.pdf".data = .error .extNotAllowed := by decide
example : sanitize_filename "noext".data = .error .noExt := by decide
example : sanitize_filename ".txt".data = .error .noExt := by decide
example : sanitize_filename "a.".data = .error .extNotAllowed := by decide
example : specSanitize "a.txt".data = .ok "a.txt".data := by decide

/-! ## Filesystem model and the three operations

Deterministic model of the filesystem the operations run against: a partial
map from names to nodes.  `create_new` fails exactly when the target exists;
`fs::rename` of a regular file fails exactly when the destination is a
directory; `stream`-copies and `flush` succeed.  Each operation also returns
the trace of filesystem accesses it performed, in program order. -/

/-- A filesystem node: a regular file with its byte content, or a directory. -/
inductive Node where
  | file (content : List Nat)
  | dir
  deriving DecidableEq, Repr

/-- The filesystem: a partial map from names to nodes. -/
abbrev FS := FName → Option Node

/-- Point update of a filesystem. -/
def update (fs : FS) (k : FName) (v : Option Node) : FS :=
  fun n => if n = k then v else fs n

/-- A filesystem access event: a containment check, an open-for-read, a write
of the given bytes, a removal, or a rename. -/
inductive Ev where
  | check (p : FName)
  | read (p : FName)
  | write (p : FName) (bytes : List Nat)
  | remove (p : FName)
  | rename (src dst : FName)
  deriving DecidableEq, Repr

/-- The result of one operation: the returned `Except`, the final filesystem,
and the trace of filesystem accesses, in order. -/
structure Outcome (α : Type) where
  res : Except Err α
  fs : FS
  tr : List Ev

/-- The audit log's filename, `cwd().join("logfile.txt")`. -/
def logName : FName := "logfile.txt".data

/-- `log_event` from `src/lib.rs` lines 67–78: append one formatted line to
`logfile.txt` (creating it when absent).  The formatted `[timestamp] LEVEL:
message` line is the parameter `line` (it embeds `Utc::now()`); `logOk` says
whether the append I/O succeeds — the open fails in the model when `logfile.txt`
is a directory, and may fail for external reasons (`logOk = false`), in which
case the filesystem is unchanged and the error is the caller's to handle. -/
def log_event (fs : FS) (logOk : Bool) (line : List Nat) : FS × List Ev :=
  if logOk then
    match fs logName with
    | some Node.dir => (fs, [])
    | some (Node.file c) =>
      (update fs logName (some (Node.file (c ++ line))), [Ev.write logName line])
    | none => (update fs logName (some (Node.file line)), [Ev.write logName line])
  else (fs, [])

/-- `backup_file` from `src/lib.rs` lines 81–112: sanitize, containment-check
the source name, require the source to exist and be a regular file, require
`<filename>.bak` to be absent, open the source for read, `create_new` the
backup and stream-copy, flush, then best-effort audit log (`.ok()` discards
its result). -/
def backup_file (base : List FName) (logOk : Bool) (line : List Nat)
    (fs : FS) (input : FName) : Outcome FName :=
  match sanitize_filename input with
  | .error e => ⟨.error e, fs, []⟩
  | .ok filename =>
    match within_cwd base filename with
    | .error e => ⟨.error e, fs, [Ev.check filename]⟩
    | .ok _ =>
      match fs filename with
      | none => ⟨.error .srcMissing, fs, [Ev.check filename]⟩
      | some Node.dir => ⟨.error .srcNotRegular, fs, [Ev.check filename]⟩
      | some (Node.file c) =>
        let bak := filename ++ ".bak".data
        match fs bak with
        | some _ => ⟨.error .alreadyExists, fs, [Ev.check filename]⟩
        | none =>
          let fs1 := update fs bak (some (Node.file c))
          let lg := log_event fs1 logOk line
          ⟨.ok bak, lg.1, [Ev.check filename, Ev.read filename, Ev.write bak c] ++ lg.2⟩

/-- `restore_file` from `src/lib.rs` lines 115–149: sanitize, containment-check
the `.bak` name, require the backup to exist and be a regular file, open it for
read, `create_new` the `.tmp` file (fails when it already exists) and
stream-copy, flush, atomically rename the temp over the original (on rename
failure — the destination is a directory — remove the temp as cleanup and
surface the error), then best-effort audit log. -/
def restore_file (base : List FName) (logOk : Bool) (line : List Nat)
    (fs : FS) (input : FName) : Outcome FName :=
  match sanitize_filename input with
  | .error e => ⟨.error e, fs, []⟩
  | .ok filename =>
    let bak := filename ++ ".bak".data
    match within_cwd base bak with
    | .error e => ⟨.error e, fs, [Ev.check bak]⟩
    | .ok _ =>
      match fs bak with
      | some (Node.file c) =>
        let tmp := filename ++ ".tmp".data
        match fs tmp with
        | some _ => ⟨.error .tmpCreateFailed, fs, [Ev.check bak, Ev.read bak]⟩
        | none =>
          let fs1 := update fs tmp (some (Node.file c))
          match fs1 filename with
          | some Node.dir =>
            ⟨.error .renameFailed, update fs1 tmp none,
             [Ev.check bak, Ev.read bak, Ev.write tmp c, Ev.rename tmp filename,
              Ev.remove tmp]⟩
          | _ =>
            let fs2 := update (update fs1 filename (some (Node.file c))) tmp none
            let lg := log_event fs2 logOk line
            ⟨.ok filename, lg.1,
             [Ev.check bak, Ev.read bak, Ev.write tmp c, Ev.rename tmp filename]
               ++ lg.2⟩
      | _ => ⟨.error .backupMissing, fs, [Ev.check bak]⟩

/-- In-place write of `bs` into `c` starting at byte offset `pos` (the file is
open for writing without truncation, so bytes outside the written range keep
their values). -/
def writeAt (c : List Nat) (pos : Nat) (bs : List Nat) : List Nat :=
  c.take pos ++ bs ++ c.drop (pos + bs.length)

/-- The overwrite loop of `delete_file` (lines 169–176): while `written < len`
write `min 8192 (len - written)` zero bytes at offset `written`.  Returns the
final content and the list of written chunks.  The first argument is
structural fuel; `len - written` strictly decreases each iteration, so
`len - written` is always enough fuel. -/
def zeroGo : Nat → Nat → Nat → List Nat → List Nat × List (List Nat)
  | 0, _, _, c => (c, [])
  | fuel + 1, len, written, c =>
    if written < len then
      let tw := min 8192 (len - written)
      let r := zeroGo fuel len (written + tw) (writeAt c written (List.replicate tw 0))
      (r.1, List.replicate tw 0 :: r.2)
    else (c, [])

/-- The overwrite loop, entered with enough fuel. -/
def zeroLoop (len written : Nat) (c : List Nat) : List Nat × List (List Nat) :=
  zeroGo (len - written) len written c

/-- The sizes of the chunks the overwrite loop writes for a file of remaining
length `r`: `min 8192 r`, repeatedly, until nothing remains. -/
def chunkGo : Nat → Nat → List Nat
  | 0, _ => []
  | fuel + 1, r => if 0 < r then min 8192 r :: chunkGo fuel (r - min 8192 r) else []

/-- Chunk sizes for a file of length `n`. -/
def chunkKs (n : Nat) : List Nat := chunkGo n n

/-- `delete_file` from `src/lib.rs` lines 152–183: sanitize, containment-check,
require the file to exist and be regular, read its length, open it for writing
without truncation and overwrite it with zeros in chunks of at most 8 KiB,
flush, remove it, then best-effort audit log. -/
def delete_file (base : List FName) (logOk : Bool) (line : List Nat)
    (fs : FS) (input : FName) : Outcome Unit :=
  match sanitize_filename input with
  | .error e => ⟨.error e, fs, []⟩
  | .ok filename =>
    match within_cwd base filename with
    | .error e => ⟨.error e, fs, [Ev.check filename]⟩
    | .ok _ =>
      match fs filename with
      | some (Node.file c) =>
        let z := zeroLoop c.length 0 c
        let fs1 := update fs filename (some (Node.file z.1))
        let fs2 := update fs1 filename none
        let lg := log_event fs2 logOk line
        ⟨.ok (), lg.1,
         [Ev.check filename] ++ z.2.map (fun b => Ev.write filename b)
           ++ [Ev.remove filename] ++ lg.2⟩
      | _ => ⟨.error .fileMissing, fs, [Ev.check filename]⟩

example : zeroLoop 3 0 [7, 8, 9] = ([0, 0, 0], [[0, 0, 0]]) := by decide
example : chunkKs 20000 = [8192, 8192, 3616] := by decide

/-! ## Helper lemmas -/

/-- The conditions under which `sanitize_filename` accepts. -/
def SanOk (s : FName) : Prop :=
  s ≠ [] ∧ utf8Len s ≤ 255 ∧ '/' ∉ s ∧ '\\' ∉ s ∧ ¬ (['.', '.'] <:+: s) ∧
    (∀ c ∈ s, isAllowedChar c = true) ∧
    ∃ e, rustExtension s = some e ∧ e ∈ allowedExts

theorem sanitize_ok_iff (s t : FName) :
    sanitize_filename s = .ok t ↔ t = s ∧ SanOk s := by
  unfold sanitize_filename SanOk
  split_ifs with h1 h2 h3 h4 h5
  · simp only [List.isEmpty_iff] at h1
    simp [h1]
  · constructor
    · intro h; exact absurd h (by simp)
    · rintro ⟨rfl, -, hlen, -⟩; omega
  · simp only [Bool.or_eq_true, List.elem_eq_mem, List.contains, decide_eq_true_eq] at h3
    constructor
    · intro h; exact absurd h (by simp)
    · rintro ⟨rfl, -, -, hs1, hs2, -⟩
      rcases h3 with h | h
      · exact hs1 h
      · exact hs2 h
  · constructor
    · intro h; exact absurd h (by simp)
    · rintro ⟨rfl, -, -, -, -, hs, -⟩; exact hs h4
  · simp only [Bool.not_eq_true', List.all_eq_false] at h5
    constructor
    · intro h; exact absurd h (by simp)
    · rintro ⟨rfl, -, -, -, -, -, hall, -⟩
      obtain ⟨c, hc, hcb⟩ := h5
      exact absurd (hall c hc) (by simp [hcb])
  · rcases he : rustExtension s with _ | e
    · constructor
      · intro h; exact absurd h (by simp)
      · rintro ⟨rfl, -, -, -, -, -, -, e, hee, -⟩
        exact absurd hee (by simp)
    · rw [show (match some e with
          | some ext =>
            if (!allowedExts.contains ext) = true then Except.error Err.extNotAllowed
            else Except.ok s
          | none => Except.error Err.noExt) =
          if (!allowedExts.contains e) = true then Except.error Err.extNotAllowed
          else Except.ok s from rfl]
      simp only [List.isEmpty_iff] at h1
      simp only [not_lt] at h2
      simp only [Bool.or_eq_true, List.elem_eq_mem, List.contains, decide_eq_true_eq,
        not_or] at h3
      simp only [Bool.not_eq_true', Bool.not_eq_false, List.all_eq_true] at h5
      split_ifs with h6
      · constructor
        · intro h; exact absurd h (by simp)
        · rintro ⟨rfl, -, -, -, -, -, -, e', hee, hmem⟩
          cases hee
          simp only [Bool.not_eq_true', List.elem_eq_mem, decide_eq_false_iff_not] at h6
          exact h6 hmem
      · simp only [Bool.not_eq_true', Bool.not_eq_false, List.elem_eq_mem,
          decide_eq_true_eq] at h6
        simp only [Except.ok.injEq]
        constructor
        · rintro rfl
          exact ⟨rfl, h1, h2, h3.1, h3.2, h4, h5, e, rfl, h6⟩
        · rintro ⟨rfl, -⟩; rfl

theorem sanitize_ok_elim {s t : FName} (h : sanitize_filename s = .ok t) :
    t = s ∧ SanOk s := (sanitize_ok_iff s t).mp h

theorem splitSlash_of_no_sep (s : FName) (h : '/' ∉ s) : splitSlash s = [s] := by
  induction s with
  | nil => rfl
  | cons c cs ih =>
    simp only [List.mem_cons, not_or] at h
    unfold splitSlash
    rw [ih h.2]
    rw [if_neg (fun hc => h.1 hc.symm)]

theorem pathComponents_single (s : FName) (hsep : '/' ∉ s) (hne : s ≠ []) :
    pathComponents s = [s] := by
  unfold pathComponents
  rw [splitSlash_of_no_sep s hsep]
  cases s with
  | nil => exact absurd rfl hne
  | cons c cs => rfl

theorem isPrefixOf_append_self (l t : List FName) :
    List.isPrefixOf l (l ++ t) = true := by
  induction l with
  | nil => simp
  | cons a as ih => simp [List.isPrefixOf_cons₂, ih]

/-- For a non-empty separator-free name other than `"."` and `".."`, the
containment check always succeeds: the candidate is `base ++ [name]`. -/
theorem within_cwd_ok (base : List FName) (s : FName) (hne : s ≠ [])
    (hd1 : s ≠ ['.']) (hd2 : s ≠ ['.', '.']) (hsep : '/' ∉ s) :
    within_cwd base s = .ok () := by
  unfold within_cwd pathFileName
  rw [pathComponents_single s hsep hne]
  have hd : ¬ (s = ['.'] ∨ s = ['.', '.']) := by tauto
  simp only [List.getLast?_singleton, if_neg hd, List.isEmpty_cons,
    Bool.false_eq_true, if_false, List.dropLast_single, List.filter_nil,
    List.append_nil, isPrefixOf_append_self base [s], if_true]

/-- A name accepted by the validator is not `""`, `"."` or `".."` and has no
separator, so the containment check accepts it. -/
theorem SanOk.within_ok {s : FName} (h : SanOk s) (base : List FName) :
    within_cwd base s = .ok () := by
  obtain ⟨hne, -, hsep, -, -, -, e, he, -⟩ := h
  refine within_cwd_ok base s hne ?_ ?_ hsep
  · rintro rfl; simp [rustExtension] at he
  · rintro rfl; simp [rustExtension] at he

/-- Appending a non-empty separator-free suffix to a validated name again
passes the containment check. -/
theorem SanOk.within_sfx_ok {s : FName} (h : SanOk s) (base : List FName)
    (sfx : FName) (hlen : 2 < sfx.length) (hsep : '/' ∉ sfx) :
    within_cwd base (s ++ sfx) = .ok () := by
  obtain ⟨hne, -, hsep', -, -, -, -, -, -⟩ := h
  have hlen' : 2 < (s ++ sfx).length := by
    simp only [List.length_append]; omega
  refine within_cwd_ok base (s ++ sfx) ?_ ?_ ?_ ?_
  · intro hc; rw [hc] at hlen'; simp at hlen'
  · intro hc; rw [hc] at hlen'; simp at hlen'
  · intro hc; rw [hc] at hlen'; simp at hlen'
  · simp only [List.mem_append, not_or]; exact ⟨hsep', hsep⟩

theorem update_same (fs : FS) (k : FName) (v : Option Node) : update fs k v k = v := by
  simp [update]

theorem update_ne (fs : FS) (k n : FName) (v : Option Node) (h : n ≠ k) :
    update fs k v n = fs n := by
  simp [update, h]

theorem log_event_fs_ne (fs : FS) (logOk : Bool) (line : List Nat) (n : FName)
    (h : n ≠ logName) : (log_event fs logOk line).1 n = fs n := by
  unfold log_event
  split
  · split
    · rfl
    · exact update_ne _ _ _ _ h
    · exact update_ne _ _ _ _ h
  · rfl

/-- A name with a suffix that `logName` does not end in is not `logName`. -/
theorem append_ne_logName (xs sfx : FName) (h : ¬ sfx <:+ logName) :
    xs ++ sfx ≠ logName := by
  intro hc
  exact h (hc ▸ List.suffix_append xs sfx)

theorem bak_ne_logName (xs : FName) : xs ++ ".bak".data ≠ logName :=
  append_ne_logName xs ".bak".data (by decide)

theorem tmp_ne_logName (xs : FName) : xs ++ ".tmp".data ≠ logName :=
  append_ne_logName xs ".tmp".data (by decide)

theorem self_ne_append (xs sfx : FName) (h : sfx ≠ []) : xs ≠ xs ++ sfx := by
  intro hc
  have := congrArg List.length hc
  simp only [List.length_append] at this
  have : sfx.length = 0 := by omega
  exact h (List.length_eq_zero.mp this)

theorem append_sfx_ne (xs s1 s2 : FName) (h : s1 ≠ s2) : xs ++ s1 ≠ xs ++ s2 :=
  fun hc => h (List.append_cancel_left hc)

/-- The containment-check events of a trace. -/
def checkOf? : Ev → Option FName
  | .check p => some p
  | _ => none

/-- The paths a trace ran the containment check on, in order. -/
def checksIn (tr : List Ev) : List FName := tr.filterMap checkOf?

theorem checksIn_log (fs : FS) (logOk : Bool) (line : List Nat) :
    checksIn (log_event fs logOk line).2 = [] := by
  unfold log_event
  split
  · split <;> rfl
  · rfl

/-- The paths an event reads, writes, removes or renames. -/
def usedPaths : Ev → List FName
  | .check _ => []
  | .read p => [p]
  | .write p _ => [p]
  | .remove p => [p]
  | .rename a b => [a, b]

/-- Whether every read/write/remove/rename of the trace touches only paths on
which a containment check occurred earlier (`done` accumulates the already
checked paths). -/
def checkedBeforeUse (done : List FName) : List Ev → Bool
  | [] => true
  | ev :: rest =>
    (usedPaths ev).all (fun p => done.contains p) &&
      checkedBeforeUse
        (match ev with
         | .check p => p :: done
         | _ => done) rest

theorem chunkGo_sum : ∀ fuel r, r ≤ fuel → (chunkGo fuel r).sum = r := by
  intro fuel
  induction fuel with
  | zero => intro r h; interval_cases r; rfl
  | succ n ih =>
    intro r h
    unfold chunkGo
    split
    · rename_i hr
      have h1 : 1 ≤ min 8192 r := by omega
      have h2 : r - min 8192 r ≤ n := by omega
      simp only [List.sum_cons, ih _ h2]
      omega
    · simp_all

theorem chunkGo_mem : ∀ fuel r k, k ∈ chunkGo fuel r → 0 < k ∧ k ≤ 8192 := by
  intro fuel
  induction fuel with
  | zero => intro r k h; simp [chunkGo] at h
  | succ n ih =>
    intro r k h
    unfold chunkGo at h
    split at h
    · rename_i hr
      rcases List.mem_cons.mp h with rfl | h
      · omega
      · exact ih _ _ h
    · simp at h

theorem zeroGo_chunks : ∀ fuel len w c, len - w ≤ fuel →
    (zeroGo fuel len w c).2 = (chunkGo fuel (len - w)).map (fun k => List.replicate k 0) := by
  intro fuel
  induction fuel with
  | zero => intro len w c h; rfl
  | succ n ih =>
    intro len w c h
    unfold zeroGo chunkGo
    split
    · rename_i hlt
      rw [if_pos (by omega : 0 < len - w)]
      have htw : 1 ≤ min 8192 (len - w) := by omega
      have : len - (w + min 8192 (len - w)) = len - w - min 8192 (len - w) := by omega
      simp only [List.map_cons]
      rw [ih len (w + min 8192 (len - w)) _ (by omega), this]
    · rw [if_neg (by omega : ¬ 0 < len - w)]
      rfl

theorem writeAt_length (c : List Nat) (pos : Nat) (bs : List Nat)
    (h : pos + bs.length ≤ c.length) :
    (writeAt c pos bs).length = c.length := by
  simp only [writeAt, List.length_append, List.length_take, List.length_drop]
  omega

theorem zeroGo_content : ∀ fuel len w c, len - w ≤ fuel → c.length = len → w ≤ len →
    (zeroGo fuel len w c).1 = c.take w ++ List.replicate (len - w) 0 := by
  intro fuel
  induction fuel with
  | zero =>
    intro len w c hf hc hw
    have : w = len := by omega
    subst this
    simp only [zeroGo, Nat.sub_self, List.replicate_zero, List.append_nil, ← hc,
      List.take_length]
  | succ n ih =>
    intro len w c hf hc hw
    unfold zeroGo
    split
    · rename_i hlt
      set tw := min 8192 (len - w) with htw
      have htw1 : 1 ≤ tw := by omega
      have htw2 : w + tw ≤ len := by omega
      have hlen' : (writeAt c w (List.replicate tw 0)).length = len := by
        rw [writeAt_length _ _ _ (by simp only [List.length_replicate]; omega)]
        exact hc
      rw [ih len (w + tw) _ (by omega) hlen' htw2]
      have hself : writeAt c w (List.replicate tw 0) =
          (c.take w ++ List.replicate tw 0) ++ c.drop (w + tw) := by
        simp [writeAt, List.append_assoc]
      rw [hself]
      rw [List.take_left' (by simp only [List.length_append, List.length_take,
        List.length_replicate]; omega)]
      rw [List.append_assoc, ← List.replicate_add]
      congr 2
      omega
    · rename_i hge
      have : w = len := by omega
      subst this
      simp only [Nat.sub_self, List.replicate_zero, List.append_nil, ← hc,
        List.take_length]

/-! ## Claim theorems -/

/-- C3: `sanitize_filename` performs its checks in exactly the order (1) empty
input, (2) length > 255 bytes, (3) `/` or `\`, (4) substring `..`, (5) byte
outside `[A-Za-z0-9._-]`, (6) missing extension, (7) extension not in
`{txt, log, md}`, first failure deciding the returned error with no further
checks run (it equals the spec's first-failure check list); in particular
every string containing `/`, `\` or `..` is rejected regardless of its other
content. -/
theorem c3_sanitize_check_order :
    (∀ s, sanitize_filename s = specSanitize s) ∧
    (∀ s, ('/' ∈ s ∨ '\\' ∈ s ∨ ['.', '.'] <:+: s) → ∀ t, sanitize_filename s ≠ .ok t) := by
  refine ⟨fun s => ?_, fun s h t hok => ?_⟩
  · simp only [specSanitize, specChecks, firstFailure, decide_eq_true_eq,
      sanitize_filename]
    cases he : rustExtension s with
    | none => split_ifs <;> simp_all
    | some e => split_ifs <;> simp_all
  · obtain ⟨-, -, -, h1, h2, h3, -⟩ := sanitize_ok_elim hok
    rcases h with h | h | h
    · exact h1 h
    · exact h2 h
    · exact h3 h

theorem c3_witness :
    ('/' ∈ "../x".data ∨ '\\' ∈ "../x".data ∨ ['.', '.'] <:+: "../x".data) ∧
      sanitize_filename "../x".data ≠ .ok "../x".data :=
  ⟨by decide, c3_sanitize_check_order.2 "../x".data (by decide) "../x".data⟩

/-- C10: when `sanitize_filename` accepts, it returns the input itself
(`Ok(input.to_string())`), so validation is idempotent: the returned value is
accepted again with the same result. -/
theorem c10_sanitize_idempotent (s t : FName) (h : sanitize_filename s = .ok t) :
    t = s ∧ sanitize_filename t = .ok t := by
  obtain ⟨rfl, -⟩ := sanitize_ok_elim h
  exact ⟨rfl, h⟩

theorem c10_witness :
    sanitize_filename "a.txt".data = .ok "a.txt".data ∧
      "a.txt".data = "a.txt".data ∧
      sanitize_filename "a.txt".data = .ok "a.txt".data :=
  ⟨by decide, c10_sanitize_idempotent "a.txt".data "a.txt".data (by decide)⟩

/-- C9: a name accepted by `sanitize_filename` contains no `/`, `\` or `..`,
so `within_cwd` on it — and on it with `.bak` or `.tmp` appended — never takes
the "path escapes working directory" branch: the candidate is always
`base ++ [name]`, a component-wise extension of the base. -/
theorem c9_contained_never_escapes (base : List FName) (s t : FName)
    (h : sanitize_filename s = .ok t) :
    within_cwd base s ≠ .error .pathEscape ∧
    within_cwd base (s ++ ".bak".data) ≠ .error .pathEscape ∧
    within_cwd base (s ++ ".tmp".data) ≠ .error .pathEscape := by
  obtain ⟨-, hok⟩ := sanitize_ok_elim h
  refine ⟨?_, ?_, ?_⟩
  · rw [hok.within_ok base]; simp
  · rw [hok.within_sfx_ok base ".bak".data (by decide) (by decide)]; simp
  · rw [hok.within_sfx_ok base ".tmp".data (by decide) (by decide)]; simp

theorem c9_witness :
    sanitize_filename "a.txt".data = .ok "a.txt".data ∧
      within_cwd [] "a.txt".data ≠ .error .pathEscape ∧
      within_cwd [] ("a.txt".data ++ ".bak".data) ≠ .error .pathEscape ∧
      within_cwd [] ("a.txt".data ++ ".tmp".data) ≠ .error .pathEscape :=
  ⟨by decide, c9_contained_never_escapes [] "a.txt".data "a.txt".data (by decide)⟩

/-! ## Operation evaluation lemmas -/

theorem log_event_keeps_file (fs : FS) (logOk : Bool) (line : List Nat) (n : FName)
    (c : List Nat) (h : fs n = some (Node.file c)) :
    ∃ c', (log_event fs logOk line).1 n = some (Node.file c') := by
  by_cases hn : n = logName
  · subst hn
    unfold log_event
    split
    · refine ⟨c ++ line, ?_⟩
      simp only [h]
      exact update_same fs logName (some (Node.file (c ++ line)))
    · exact ⟨c, h⟩
  · exact ⟨c, by rw [log_event_fs_ne _ _ _ _ hn]; exact h⟩

theorem backup_success (base : List FName) (logOk : Bool) (line : List Nat)
    (fs : FS) (s : FName) (c : List Nat)
    (hs : sanitize_filename s = .ok s) (hfile : fs s = some (Node.file c))
    (hbak : fs (s ++ ".bak".data) = none) :
    backup_file base logOk line fs s =
      ⟨.ok (s ++ ".bak".data),
       (log_event (update fs (s ++ ".bak".data) (some (Node.file c))) logOk line).1,
       [Ev.check s, Ev.read s, Ev.write (s ++ ".bak".data) c]
         ++ (log_event (update fs (s ++ ".bak".data) (some (Node.file c))) logOk line).2⟩ := by
  obtain ⟨-, hok⟩ := sanitize_ok_elim hs
  simp only [backup_file, hs, hok.within_ok base, hfile, hbak]

theorem backup_already (base : List FName) (logOk : Bool) (line : List Nat)
    (fs : FS) (s : FName) (c : List Nat) (n : Node)
    (hs : sanitize_filename s = .ok s) (hfile : fs s = some (Node.file c))
    (hbak : fs (s ++ ".bak".data) = some n) :
    backup_file base logOk line fs s = ⟨.error .alreadyExists, fs, [Ev.check s]⟩ := by
  obtain ⟨-, hok⟩ := sanitize_ok_elim hs
  simp only [backup_file, hs, hok.within_ok base, hfile, hbak]

theorem restore_success (base : List FName) (logOk : Bool) (line : List Nat)
    (fs : FS) (s : FName) (c : List Nat)
    (hs : sanitize_filename s = .ok s)
    (hbak : fs (s ++ ".bak".data) = some (Node.file c))
    (htmp : fs (s ++ ".tmp".data) = none)
    (hnd : fs s ≠ some Node.dir) :
    restore_file base logOk line fs s =
      ⟨.ok s,
       (log_event
         (update (update (update fs (s ++ ".tmp".data) (some (Node.file c))) s
           (some (Node.file c))) (s ++ ".tmp".data) none) logOk line).1,
       [Ev.check (s ++ ".bak".data), Ev.read (s ++ ".bak".data),
        Ev.write (s ++ ".tmp".data) c, Ev.rename (s ++ ".tmp".data) s]
         ++ (log_event
           (update (update (update fs (s ++ ".tmp".data) (some (Node.file c))) s
             (some (Node.file c))) (s ++ ".tmp".data) none) logOk line).2⟩ := by
  obtain ⟨-, hok⟩ := sanitize_ok_elim hs
  have hstmp : s ≠ s ++ ".tmp".data := self_ne_append s ".tmp".data (by decide)
  have hfs1 : update fs (s ++ ".tmp".data) (some (Node.file c)) s = fs s :=
    update_ne _ _ _ _ hstmp
  rcases hd : fs s with _ | n
  · simp only [restore_file, hs,
      hok.within_sfx_ok base ".bak".data (by decide) (by decide), hbak, htmp, hfs1, hd]
  · cases n with
    | dir => exact absurd hd hnd
    | file d =>
      simp only [restore_file, hs,
        hok.within_sfx_ok base ".bak".data (by decide) (by decide), hbak, htmp, hfs1, hd]

theorem restore_tmp_exists (base : List FName) (logOk : Bool) (line : List Nat)
    (fs : FS) (s : FName) (c : List Nat) (n : Node)
    (hs : sanitize_filename s = .ok s)
    (hbak : fs (s ++ ".bak".data) = some (Node.file c))
    (htmp : fs (s ++ ".tmp".data) = some n) :
    restore_file base logOk line fs s =
      ⟨.error .tmpCreateFailed, fs,
       [Ev.check (s ++ ".bak".data), Ev.read (s ++ ".bak".data)]⟩ := by
  obtain ⟨-, hok⟩ := sanitize_ok_elim hs
  simp only [restore_file, hs,
    hok.within_sfx_ok base ".bak".data (by decide) (by decide), hbak, htmp]

theorem delete_success (base : List FName) (logOk : Bool) (line : List Nat)
    (fs : FS) (s : FName) (c : List Nat)
    (hs : sanitize_filename s = .ok s) (hfile : fs s = some (Node.file c)) :
    delete_file base logOk line fs s =
      ⟨.ok (),
       (log_event (update (update fs s (some (Node.file (zeroLoop c.length 0 c).1))) s
         none) logOk line).1,
       [Ev.check s] ++ (zeroLoop c.length 0 c).2.map (fun b => Ev.write s b)
         ++ [Ev.remove s]
         ++ (log_event (update (update fs s (some (Node.file (zeroLoop c.length 0 c).1)))
           s none) logOk line).2⟩ := by
  obtain ⟨-, hok⟩ := sanitize_ok_elim hs
  simp only [delete_file, hs, hok.within_ok base, hfile]

/-- C7: `restore_file` on a valid filename whose `.bak` path is absent or not
a regular file fails with the "backup file does not exist" error (the spec's
`NotFound`), mutates nothing, and in particular creates no `.tmp` artifact:
its trace holds only the containment check of the `.bak` path. -/
theorem c7_restore_missing_bak (base : List FName) (logOk : Bool)
    (line : List Nat) (fs : FS) (s : FName)
    (hs : sanitize_filename s = .ok s)
    (hbak : fs (s ++ ".bak".data) = none ∨ fs (s ++ ".bak".data) = some Node.dir) :
    (restore_file base logOk line fs s).res = .error .backupMissing ∧
    (restore_file base logOk line fs s).fs = fs ∧
    (restore_file base logOk line fs s).tr = [Ev.check (s ++ ".bak".data)] := by
  obtain ⟨-, hok⟩ := sanitize_ok_elim hs
  rcases hbak with hb | hb <;>
    simp [restore_file, hs,
      hok.within_sfx_ok base ".bak".data (by decide) (by decide), hb]

/-- Filesystem holding just one regular file `a.txt`. -/
def fsA : FS := fun n => if n = "a.txt".data then some (Node.file [104]) else none

theorem c7_witness :
    (sanitize_filename "a.txt".data = .ok "a.txt".data ∧
      (fsA ("a.txt".data ++ ".bak".data) = none ∨
        fsA ("a.txt".data ++ ".bak".data) = some Node.dir)) ∧
    (restore_file [] true [65] fsA "a.txt".data).res = .error .backupMissing ∧
    (restore_file [] true [65] fsA "a.txt".data).fs = fsA ∧
    (restore_file [] true [65] fsA "a.txt".data).tr =
      [Ev.check ("a.txt".data ++ ".bak".data)] :=
  ⟨⟨by decide, by decide⟩,
   c7_restore_missing_bak [] true [65] fsA "a.txt".data (by decide) (by decide)⟩

/-- C5: with a valid filename naming a regular file and no `.bak` present, the
first `backup_file` succeeds and writes the `.bak` artifact; calling it again
on the resulting filesystem fails with the `AlreadyExists` error and changes
nothing, leaving the first artifact byte-for-byte as written. -/
theorem c5_backup_twice (base : List FName) (logOk : Bool) (line : List Nat)
    (fs : FS) (s : FName) (c : List Nat)
    (hs : sanitize_filename s = .ok s)
    (hfile : fs s = some (Node.file c))
    (hbak : fs (s ++ ".bak".data) = none) :
    (backup_file base logOk line fs s).res = .ok (s ++ ".bak".data) ∧
    (backup_file base logOk line fs s).fs (s ++ ".bak".data) = some (Node.file c) ∧
    (backup_file base logOk line (backup_file base logOk line fs s).fs s).res
        = .error .alreadyExists ∧
    (backup_file base logOk line (backup_file base logOk line fs s).fs s).fs
        = (backup_file base logOk line fs s).fs := by
  have h1 := backup_success base logOk line fs s c hs hfile hbak
  have hbak1 : (backup_file base logOk line fs s).fs (s ++ ".bak".data)
      = some (Node.file c) := by
    simp only [h1]
    rw [log_event_fs_ne _ _ _ _ (bak_ne_logName s)]
    exact update_same _ _ _
  have hsrc1 : ∃ c', (backup_file base logOk line fs s).fs s = some (Node.file c') := by
    simp only [h1]
    apply log_event_keeps_file
    rw [update_ne _ _ _ _ (self_ne_append s ".bak".data (by decide))]
    exact hfile
  obtain ⟨c', hsrc1⟩ := hsrc1
  have h2 := backup_already base logOk line (backup_file base logOk line fs s).fs s c'
      (Node.file c) hs hsrc1 hbak1
  refine ⟨by simp only [h1], hbak1, by simp only [h2], by simp only [h2]⟩

theorem c5_witness :
    (sanitize_filename "a.txt".data = .ok "a.txt".data ∧
      fsA "a.txt".data = some (Node.file [104]) ∧
      fsA ("a.txt".data ++ ".bak".data) = none) ∧
    (backup_file [] true [65] fsA "a.txt".data).res = .ok ("a.txt".data ++ ".bak".data) ∧
    (backup_file [] true [65] fsA "a.txt".data).fs ("a.txt".data ++ ".bak".data)
        = some (Node.file [104]) ∧
    (backup_file [] true [65] (backup_file [] true [65] fsA "a.txt".data).fs
        "a.txt".data).res = .error .alreadyExists ∧
    (backup_file [] true [65] (backup_file [] true [65] fsA "a.txt".data).fs
        "a.txt".data).fs = (backup_file [] true [65] fsA "a.txt".data).fs :=
  ⟨⟨by decide, by decide, by decide⟩,
   c5_backup_twice [] true [65] fsA "a.txt".data [104] (by decide) (by decide) (by decide)⟩

/-- C8: the returned result of each operation does not depend on whether the
audit-log append succeeds — the code discards `log_event`'s result with
`.ok()`, so an operation that reached its logging point returns success even
when logging fails. -/
theorem c8_log_failure_not_propagated (base : List FName) (line : List Nat)
    (fs : FS) (s : FName) :
    (backup_file base true line fs s).res = (backup_file base false line fs s).res ∧
    (restore_file base true line fs s).res = (restore_file base false line fs s).res ∧
    (delete_file base true line fs s).res = (delete_file base false line fs s).res := by
  refine ⟨?_, ?_, ?_⟩
  · cases hs : sanitize_filename s with
    | error e => simp only [backup_file, hs]
    | ok t =>
      cases hw : within_cwd base t with
      | error e => simp only [backup_file, hs, hw]
      | ok u =>
        rcases hf : fs t with _ | n
        · simp only [backup_file, hs, hw, hf]
        · cases n with
          | dir => simp only [backup_file, hs, hw, hf]
          | file c =>
            rcases hb : fs (t ++ ".bak".data) with _ | m <;>
              simp only [backup_file, hs, hw, hf, hb]
  · cases hs : sanitize_filename s with
    | error e => simp only [restore_file, hs]
    | ok t =>
      cases hw : within_cwd base (t ++ ".bak".data) with
      | error e => simp only [restore_file, hs, hw]
      | ok u =>
        rcases hb : fs (t ++ ".bak".data) with _ | n
        · simp only [restore_file, hs, hw, hb]
        · cases n with
          | dir => simp only [restore_file, hs, hw, hb]
          | file c =>
            rcases ht : fs (t ++ ".tmp".data) with _ | m
            · rcases hd : update fs (t ++ ".tmp".data) (some (Node.file c)) t with _ | k
              · simp only [restore_file, hs, hw, hb, ht, hd]
              · cases k with
                | dir => simp only [restore_file, hs, hw, hb, ht, hd]
                | file d => simp only [restore_file, hs, hw, hb, ht, hd]
            · simp only [restore_file, hs, hw, hb, ht]
  · cases hs : sanitize_filename s with
    | error e => simp only [delete_file, hs]
    | ok t =>
      cases hw : within_cwd base t with
      | error e => simp only [delete_file, hs, hw]
      | ok u =>
        rcases hf : fs t with _ | n
        · simp only [delete_file, hs, hw, hf]
        · cases n with
          | dir => simp only [delete_file, hs, hw, hf]
          | file c => simp only [delete_file, hs, hw, hf]

/-- Filesystem with a backup of `a.txt` and a stale `a.txt.tmp` left behind. -/
def fsStaleTmp : FS := fun n =>
  if n = "a.txt.bak".data then some (Node.file [104])
  else if n = "a.txt.tmp".data then some (Node.file [1]) else none

/-- C2 counterexample: when an `a.txt.tmp` file already exists on disk,
`restore_file "a.txt"` fails at the exclusive `create_new` of the temp path
and returns with that `.tmp` file still present — so it is not true for every
filename and state that no `<filename>.tmp` remains after the call. -/
theorem c2_counterexample :
    ¬ ((restore_file [] true [65] fsStaleTmp "a.txt".data).fs
        ("a.txt".data ++ ".tmp".data) = none) := by decide

/-- C2 (amended): provided no `<filename>.tmp` exists when `restore_file` is
called — the situation the restore call itself can control, since it creates
the temp exclusively and either renames it or removes it — no `<filename>.tmp`
exists when the call returns, on success and on every failure path.  A `.tmp`
already present at entry makes the call fail and is left in place. -/
theorem c2_no_tmp_left (base : List FName) (logOk : Bool) (line : List Nat)
    (fs : FS) (s : FName) (htmp : fs (s ++ ".tmp".data) = none) :
    (restore_file base logOk line fs s).fs (s ++ ".tmp".data) = none := by
  cases hs : sanitize_filename s with
  | error e => simp only [restore_file, hs]; exact htmp
  | ok t =>
    obtain ⟨rfl, -⟩ := sanitize_ok_elim hs
    cases hw : within_cwd base (t ++ ".bak".data) with
    | error e => simp only [restore_file, hs, hw]; exact htmp
    | ok u =>
      rcases hb : fs (t ++ ".bak".data) with _ | n
      · simp only [restore_file, hs, hw, hb]; exact htmp
      · cases n with
        | dir => simp only [restore_file, hs, hw, hb]; exact htmp
        | file c =>
          rcases hd : update fs (t ++ ".tmp".data) (some (Node.file c)) t with _ | k
          · simp only [restore_file, hs, hw, hb, htmp, hd]
            rw [log_event_fs_ne _ _ _ _ (tmp_ne_logName t)]
            exact update_same _ _ _
          · cases k with
            | dir =>
              simp only [restore_file, hs, hw, hb, htmp, hd]
              exact update_same _ _ _
            | file d =>
              simp only [restore_file, hs, hw, hb, htmp, hd]
              rw [log_event_fs_ne _ _ _ _ (tmp_ne_logName t)]
              exact update_same _ _ _

/-- Filesystem holding only a backup artifact `a.txt.bak`. -/
def fsB : FS := fun n =>
  if n = "a.txt.bak".data then some (Node.file [104]) else none

theorem c2_witness :
    fsB ("a.txt".data ++ ".tmp".data) = none ∧
    (restore_file [] true [65] fsB "a.txt".data).fs ("a.txt".data ++ ".tmp".data)
      = none :=
  ⟨by decide, c2_no_tmp_left [] true [65] fsB "a.txt".data (by decide)⟩

/-- Filesystem where the managed file is the audit log itself. -/
def fsLog : FS := fun n => if n = logName then some (Node.file [104]) else none

/-- C4 counterexample: `"logfile.txt"` is a valid filename naming an existing
regular file with no `.bak` artifact, yet backup followed immediately by
restore does not leave it byte-identical to its pre-backup content `[104]`:
after the restore's rename puts `[104]` back, the operation's own audit append
adds a log line to the restored file. -/
theorem c4_counterexample :
    ¬ ((restore_file [] true [65] (backup_file [] true [65] fsLog logName).fs
        logName).fs logName = some (Node.file [104])) := by decide

/-- C4 (amended): for every valid filename other than `logfile.txt` — the
audit log, to which the logger appends after a successful restore — naming a
regular file with no pre-existing `.bak` artifact, `backup_file` immediately
followed by `restore_file` leaves the file with byte-identical content to its
pre-backup state (also when a stale `.tmp` makes the restore fail: the
original is then left untouched). -/
theorem c4_backup_restore_roundtrip (base : List FName) (logOk : Bool)
    (line : List Nat) (fs : FS) (s : FName) (c : List Nat)
    (hs : sanitize_filename s = .ok s)
    (hlog : s ≠ logName)
    (hfile : fs s = some (Node.file c))
    (hbak : fs (s ++ ".bak".data) = none) :
    (restore_file base logOk line (backup_file base logOk line fs s).fs s).fs s
      = some (Node.file c) := by
  have hsbak : s ≠ s ++ ".bak".data := self_ne_append s ".bak".data (by decide)
  have hstmp : s ≠ s ++ ".tmp".data := self_ne_append s ".tmp".data (by decide)
  have h1 := backup_success base logOk line fs s c hs hfile hbak
  set fs1 := (log_event (update fs (s ++ ".bak".data) (some (Node.file c))) logOk
    line).1 with hfs1
  have hfs1s : fs1 s = some (Node.file c) := by
    rw [hfs1, log_event_fs_ne _ _ _ _ hlog, update_ne _ _ _ _ hsbak]
    exact hfile
  have hfs1bak : fs1 (s ++ ".bak".data) = some (Node.file c) := by
    rw [hfs1, log_event_fs_ne _ _ _ _ (bak_ne_logName s)]
    exact update_same _ _ _
  have hbfs : (backup_file base logOk line fs s).fs = fs1 := by rw [h1]
  rw [hbfs]
  rcases ht : fs1 (s ++ ".tmp".data) with _ | n
  · have h2 := restore_success base logOk line fs1 s c hs hfs1bak ht
      (by rw [hfs1s]; simp)
    simp only [h2]
    rw [log_event_fs_ne _ _ _ _ hlog, update_ne _ _ _ _ hstmp]
    exact update_same _ _ _
  · have h2 := restore_tmp_exists base logOk line fs1 s c n hs hfs1bak ht
    simp only [h2]
    exact hfs1s

theorem c4_witness :
    (sanitize_filename "a.txt".data = .ok "a.txt".data ∧ "a.txt".data ≠ logName ∧
      fsA "a.txt".data = some (Node.file [104]) ∧
      fsA ("a.txt".data ++ ".bak".data) = none) ∧
    (restore_file [] true [65] (backup_file [] true [65] fsA "a.txt".data).fs
        "a.txt".data).fs "a.txt".data = some (Node.file [104]) :=
  ⟨⟨by decide, by decide, by decide, by decide⟩,
   c4_backup_restore_roundtrip [] true [65] fsA "a.txt".data [104] (by decide)
     (by decide) (by decide) (by decide)⟩

/-- C6 counterexample: deleting `"logfile.txt"` — a valid filename naming a
regular file — does not leave the disk without a file of that name: after the
overwrite and removal, the operation's own audit append re-creates
`logfile.txt`. -/
theorem c6_counterexample :
    ¬ ((delete_file [] true [65] fsLog logName).fs logName = none) := by decide

/-- C6 (amended): for every valid filename other than `logfile.txt` (which the
audit append re-creates) naming a regular file of length `N`, `delete_file`
succeeds; its trace is the containment check, then writes to the file of zero
chunks whose sizes are each positive, at most 8192 (8 KiB) and sum to exactly
`N`, then the removal, then only audit-log events (no further containment
checks); the overwrite loop, which writes in place without truncation, leaves
the content as `N` zero bytes just before removal; and afterwards no file of
that name exists. -/
theorem c6_secure_delete (base : List FName) (logOk : Bool) (line : List Nat)
    (fs : FS) (s : FName) (c : List Nat)
    (hs : sanitize_filename s = .ok s) (hlog : s ≠ logName)
    (hfile : fs s = some (Node.file c)) :
    (delete_file base logOk line fs s).res = .ok () ∧
    (delete_file base logOk line fs s).fs s = none ∧
    (zeroLoop c.length 0 c).1 = List.replicate c.length 0 ∧
    (∃ ltr, (delete_file base logOk line fs s).tr =
        [Ev.check s]
          ++ (chunkKs c.length).map (fun k => Ev.write s (List.replicate k 0))
          ++ [Ev.remove s] ++ ltr ∧ checksIn ltr = []) ∧
    (chunkKs c.length).sum = c.length ∧
    (∀ k ∈ chunkKs c.length, 0 < k ∧ k ≤ 8192) := by
  have h1 := delete_success base logOk line fs s c hs hfile
  have hcontent : (zeroLoop c.length 0 c).1 = List.replicate c.length 0 := by
    have := zeroGo_content (c.length - 0) c.length 0 c (by omega) rfl (by omega)
    simpa [zeroLoop] using this
  have hchunks : (zeroLoop c.length 0 c).2
      = (chunkKs c.length).map (fun k => List.replicate k 0) := by
    have := zeroGo_chunks c.length c.length 0 c (by omega)
    simpa [zeroLoop, chunkKs] using this
  refine ⟨by simp only [h1], ?_, hcontent, ?_, ?_, ?_⟩
  · simp only [h1]
    rw [log_event_fs_ne _ _ _ _ hlog]
    exact update_same _ _ _
  · refine ⟨(log_event (update (update fs s
      (some (Node.file (zeroLoop c.length 0 c).1))) s none) logOk line).2, ?_,
      checksIn_log _ _ _⟩
    simp only [h1, hchunks, List.map_map]
    rfl
  · have := chunkGo_sum c.length c.length le_rfl
    simpa [chunkKs] using this
  · intro k hk
    exact chunkGo_mem c.length c.length k (by simpa [chunkKs] using hk)

theorem c6_witness :
    (sanitize_filename "a.txt".data = .ok "a.txt".data ∧ "a.txt".data ≠ logName ∧
      fsA "a.txt".data = some (Node.file [104])) ∧
    ((delete_file [] true [65] fsA "a.txt".data).res = .ok () ∧
      (delete_file [] true [65] fsA "a.txt".data).fs "a.txt".data = none ∧
      (zeroLoop (1 : Nat) 0 [104]).1 = List.replicate 1 0 ∧
      (∃ ltr, (delete_file [] true [65] fsA "a.txt".data).tr =
          [Ev.check "a.txt".data]
            ++ (chunkKs 1).map (fun k => Ev.write "a.txt".data (List.replicate k 0))
            ++ [Ev.remove "a.txt".data] ++ ltr ∧ checksIn ltr = []) ∧
      (chunkKs 1).sum = 1 ∧
      (∀ k ∈ chunkKs 1, 0 < k ∧ k ≤ 8192)) :=
  ⟨⟨by decide, by decide, by decide⟩,
   c6_secure_delete [] true [65] fsA "a.txt".data [104] (by decide) (by decide)
     (by decide)⟩

theorem checksIn_append (a b : List Ev) :
    checksIn (a ++ b) = checksIn a ++ checksIn b := by
  simp [checksIn]

theorem checksIn_map_write (s : FName) (l : List (List Nat)) :
    checksIn (l.map (fun b => Ev.write s b)) = [] := by
  induction l with
  | nil => rfl
  | cons a t ih => simp [checksIn, checkOf?]

/-- C1 counterexample: backing up `a.txt` writes the derived `a.txt.bak` path
without ever running the containment check on it — the trace contains the
write but no check of that path, so it is not true that `within_cwd` runs on
every path an operation reads or writes before use. -/
theorem c1_counterexample :
    Ev.write ("a.txt".data ++ ".bak".data) [104]
        ∈ (backup_file [] true [65] fsA "a.txt".data).tr ∧
    Ev.check ("a.txt".data ++ ".bak".data)
        ∉ (backup_file [] true [65] fsA "a.txt".data).tr ∧
    checkedBeforeUse [] (backup_file [] true [65] fsA "a.txt".data).tr = false := by
  decide

/-- C1 (amended): each operation runs `within_cwd` exactly once, on a single
path — `backup_file` on the source filename, `restore_file` on the `.bak`
path, `delete_file` on the target — and does so before any other filesystem
access: on a validated name the trace begins with that check and contains no
other check event.  The derived `.bak` path backup writes, the `.tmp` and
destination paths restore writes, renames or removes, and the audit log are
all used without a containment check of their own. -/
theorem c1_containment_checks (base : List FName) (logOk : Bool) (line : List Nat)
    (fs : FS) (s : FName) (hs : sanitize_filename s = .ok s) :
    (∃ r, (backup_file base logOk line fs s).tr = Ev.check s :: r ∧ checksIn r = []) ∧
    (∃ r, (restore_file base logOk line fs s).tr
        = Ev.check (s ++ ".bak".data) :: r ∧ checksIn r = []) ∧
    (∃ r, (delete_file base logOk line fs s).tr = Ev.check s :: r ∧ checksIn r = []) := by
  obtain ⟨-, hok⟩ := sanitize_ok_elim hs
  have hwb := hok.within_ok base
  have hwr := hok.within_sfx_ok base ".bak".data (by decide) (by decide)
  refine ⟨?_, ?_, ?_⟩
  · rcases hf : fs s with _ | n
    · exact ⟨[], by simp only [backup_file, hs, hwb, hf], rfl⟩
    · cases n with
      | dir => exact ⟨[], by simp only [backup_file, hs, hwb, hf], rfl⟩
      | file c =>
        rcases hb : fs (s ++ ".bak".data) with _ | m
        · refine ⟨[Ev.read s, Ev.write (s ++ ".bak".data) c]
            ++ (log_event (update fs (s ++ ".bak".data) (some (Node.file c)))
              logOk line).2, by simp only [backup_file, hs, hwb, hf, hb]; rfl, ?_⟩
          rw [checksIn_append, checksIn_log]
          rfl
        · exact ⟨[], by simp only [backup_file, hs, hwb, hf, hb], rfl⟩
  · rcases hb : fs (s ++ ".bak".data) with _ | n
    · exact ⟨[], by simp only [restore_file, hs, hwr, hb], rfl⟩
    · cases n with
      | dir => exact ⟨[], by simp only [restore_file, hs, hwr, hb], rfl⟩
      | file c =>
        rcases ht : fs (s ++ ".tmp".data) with _ | m
        · rcases hd : update fs (s ++ ".tmp".data) (some (Node.file c)) s with _ | k
          · refine ⟨[Ev.read (s ++ ".bak".data), Ev.write (s ++ ".tmp".data) c,
              Ev.rename (s ++ ".tmp".data) s]
              ++ (log_event (update (update (update fs (s ++ ".tmp".data)
                (some (Node.file c))) s (some (Node.file c))) (s ++ ".tmp".data) none)
                logOk line).2,
              by simp only [restore_file, hs, hwr, hb, ht, hd]; rfl, ?_⟩
            rw [checksIn_append, checksIn_log]
            rfl
          · cases k with
            | dir =>
              exact ⟨[Ev.read (s ++ ".bak".data), Ev.write (s ++ ".tmp".data) c,
                Ev.rename (s ++ ".tmp".data) s, Ev.remove (s ++ ".tmp".data)],
                by simp only [restore_file, hs, hwr, hb, ht, hd], rfl⟩
            | file d =>
              refine ⟨[Ev.read (s ++ ".bak".data), Ev.write (s ++ ".tmp".data) c,
                Ev.rename (s ++ ".tmp".data) s]
                ++ (log_event (update (update (update fs (s ++ ".tmp".data)
                  (some (Node.file c))) s (some (Node.file c))) (s ++ ".tmp".data)
                  none) logOk line).2,
                by simp only [restore_file, hs, hwr, hb, ht, hd]; rfl, ?_⟩
              rw [checksIn_append, checksIn_log]
              rfl
        · exact ⟨[Ev.read (s ++ ".bak".data)],
            by simp only [restore_file, hs, hwr, hb, ht], rfl⟩
  · rcases hf : fs s with _ | n
    · exact ⟨[], by simp only [delete_file, hs, hwb, hf], rfl⟩
    · cases n with
      | dir => exact ⟨[], by simp only [delete_file, hs, hwb, hf], rfl⟩
      | file c =>
        refine ⟨(zeroLoop c.length 0 c).2.map (fun b => Ev.write s b)
          ++ [Ev.remove s]
          ++ (log_event (update (update fs s
            (some (Node.file (zeroLoop c.length 0 c).1))) s none) logOk line).2,
          by simp only [delete_file, hs, hwb, hf]; rfl, ?_⟩
        rw [checksIn_append, checksIn_append, checksIn_map_write, checksIn_log]
        rfl

theorem c1_witness :
    sanitize_filename "a.txt".data = .ok "a.txt".data ∧
    (∃ r, (backup_file [] true [65] fsA "a.txt".data).tr
        = Ev.check "a.txt".data :: r ∧ checksIn r = []) ∧
    (∃ r, (restore_file [] true [65] fsA "a.txt".data).tr
        = Ev.check ("a.txt".data ++ ".bak".data) :: r ∧ checksIn r = []) ∧
    (∃ r, (delete_file [] true [65] fsA "a.txt".data).tr
        = Ev.check "a.txt".data :: r ∧ checksIn r = []) :=
  ⟨by decide, c1_containment_checks [] true [65] fsA "a.txt".data (by decide)⟩
